import Mathlib

/-!
Verification of the policybot GitHub/ZenHub syncer (package `syncer`).

This file shallowly embeds the synchronization engine of `syncer.go`:
filter-flag parsing, the activity-bookmark compare-and-advance wrapper
(`handleActivity`), the ZenHub pipeline pass (`handleZenHub`), the
incremental pull-request pass (`handlePullRequests`), the user registry
(`addUsers` / `pushUsers`), and the maintainer resolver
(`handleMaintainers` / `handleCODEOWNERS` / `handleOWNERS`).

Machine integers are modelled as `Nat`; `time.Time` values are modelled as
`Nat` instants (only equality/ordering of timestamps matters to the code);
Go `(value, error)` returns are modelled with `Except`/`Option`; the
external store and API collaborators are modelled as explicit inputs
(records read, fetch outcomes, injected failures).
-/

namespace PolicybotSyncer

/-! ## Go `strings` helpers, modelled on `List Char`

`goTrim` is the Go `strings.Trim` over the cutset of space and tab; `goFields` is
`strings.Fields` (split around maximal whitespace runs, no empty fields);
`goTrimLeading`/`goTrimTrailing` are `strings.TrimPrefix`/`TrimSuffix`. -/

def goIsSpace (c : Char) : Bool :=
  c = ' ' || c = '\t' || c = '\n' || c = '\x0b' || c = '\x0c' || c = '\r'

def goTrim (s : List Char) : List Char :=
  ((s.dropWhile fun c => c = ' ' || c = '\t').reverse.dropWhile
    (fun c => c = ' ' || c = '\t')).reverse

def goFieldsAux : List Char → List Char → List (List Char)
  | [], cur => if cur = [] then [] else [cur.reverse]
  | c :: rest, cur =>
    if goIsSpace c then
      if cur = [] then goFieldsAux rest []
      else cur.reverse :: goFieldsAux rest []
    else goFieldsAux rest (c :: cur)

def goFields (s : List Char) : List (List Char) := goFieldsAux s []

def goTrimLeading (p s : List Char) : List Char :=
  if p.isPrefixOf s then s.drop p.length else s

def goTrimTrailing (p s : List Char) : List Char :=
  if p.isSuffixOf s then s.take (s.length - p.length) else s

/-- The Go `strings.Split` for a one-character separator (every separator in
the syncer — comma, newline, slash — is one character): split on every
occurrence, keeping empty pieces, `[""]` for the empty string. -/
def goSplitAux (sep : Char) : List Char → List Char → List (List Char)
  | [], cur => [cur.reverse]
  | c :: rest, cur =>
    if c = sep then cur.reverse :: goSplitAux sep rest []
    else goSplitAux sep rest (c :: cur)

def goSplit (sep : Char) (s : List Char) : List (List Char) :=
  goSplitAux sep s []

/-! ## Filter flags (`ConvFilterFlags`, syncer.go lines 46-113) -/

def Issues : Nat := 1 <<< 0
def Prs : Nat := 1 <<< 1
def Maintainers : Nat := 1 <<< 2
def Members : Nat := 1 <<< 3
def Labels : Nat := 1 <<< 4
def ZenHub : Nat := 1 <<< 5
def RepoComments : Nat := 1 <<< 6
def Events : Nat := 1 <<< 7

/-- The `switch` arms of `ConvFilterFlags`: the flag constant for a token,
or `none` for an unrecognized token. -/
def tokenFlag : String → Option Nat
  | "issues" => some Issues
  | "prs" => some Prs
  | "maintainers" => some Maintainers
  | "members" => some Members
  | "labels" => some Labels
  | "zenhub" => some ZenHub
  | "repocomments" => some RepoComments
  | "events" => some Events
  | _ => none

/-- The `for` loop of `ConvFilterFlags`: fold the token flags together,
returning `(0, some msg)` as soon as an unknown token is hit (Go returns
`0, fmt.Errorf(...)` immediately). -/
def convFilterLoop : List String → Nat → Nat × Option String
  | [], result => (result, none)
  | f :: rest, result =>
    match tokenFlag f with
    | some fl => convFilterLoop rest (result ||| fl)
    | none => (0, some ("unknown filter flag " ++ f))

/-- Model of `ConvFilterFlags` (syncer.go lines 82-113): empty input defaults to
every flag; otherwise the comma-separated tokens are folded. The Go
`(FilterFlags, error)` pair is the `Nat × Option String` result. -/
def ConvFilterFlags (filter : String) : Nat × Option String :=
  if filter = "" then
    (Issues ||| Prs ||| Maintainers ||| Members ||| Labels ||| ZenHub ||| RepoComments ||| Events,
      none)
  else
    convFilterLoop ((goSplit ',' filter.data).map String.mk) 0

/-- The bitwise OR of the flag constants of a token list (the spec-side
value `ConvFilterFlags` is claimed to compute). -/
def flagsOf (toks : List String) : Nat :=
  toks.foldl (fun acc t => acc ||| (tokenFlag t).getD 0) 0

/-! ## Activity bookmarks (`handleActivity`, syncer.go lines 273-297)

`storage.BotActivity` holds one "last sync start" timestamp per
incrementally synced entity kind; timestamps are `Nat` instants and the Go
zero `time.Time` is `0`. -/

structure BotActivity where
  lastIssueSyncStart : Nat := 0
  lastIssueCommentSyncStart : Nat := 0
  lastPullRequestReviewCommentSyncStart : Nat := 0
deriving DecidableEq, Repr

instance : Inhabited BotActivity := ⟨{}⟩

/-- The `getField` selectors passed to `handleActivity` by `handleRepo`
(syncer.go lines 226-255): each picks one timestamp field. -/
inductive ActivityField
  | issues
  | issueComments
  | prReviewComments
deriving DecidableEq, Repr

def ActivityField.get : ActivityField → BotActivity → Nat
  | .issues, a => a.lastIssueSyncStart
  | .issueComments, a => a.lastIssueCommentSyncStart
  | .prReviewComments, a => a.lastPullRequestReviewCommentSyncStart

def ActivityField.set : ActivityField → Nat → BotActivity → BotActivity
  | .issues, v, a => { a with lastIssueSyncStart := v }
  | .issueComments, v, a => { a with lastIssueCommentSyncStart := v }
  | .prReviewComments, v, a => { a with lastPullRequestReviewCommentSyncStart := v }

/-- The callback `handleActivity` passes to `UpdateBotActivity`
(syncer.go lines 287-291): advance the field to `start` only if it still
equals `priorStart`. -/
def activityUpdateCB (f : ActivityField) (priorStart start : Nat) (act : BotActivity) :
    BotActivity :=
  if f.get act = priorStart then f.set start act else act

/-- The `priorStart` computation of `handleActivity` (syncer.go lines
277-281): the field value of the record read by `ReadBotActivity`, or the
zero time when the read errored or returned no record (the error of the read is
discarded by `activity, _ := ...`). -/
def priorBookmark (readRes : Except String (Option BotActivity)) (f : ActivityField) : Nat :=
  match readRes with
  | .ok (some activity) => f.get activity
  | _ => 0

/-- Everything observable about one `handleActivity` pass: its returned
error, the `BotActivity` record left in the store, and the lower bound the
fetch+write callback was invoked with. -/
structure ActivityOutcome where
  result : Except String Unit
  record : Option BotActivity
  lowerBound : Nat
deriving Repr

/-- Model of `handleActivity` (syncer.go lines 273-297). Inputs: `start` is the
`time.Now().UTC()` captured before the fetch; `readRes` the
`ReadBotActivity` result; `cb` the fetch+write callback; `current` the
record `UpdateBotActivity` finds at update time; `updateFails` injects a
store failure into the `UpdateBotActivity` call.

The store operation `UpdateBotActivity` is *modelled from the spec*: "an atomic
update-with-callback operation for BotActivity" — the callback is applied
atomically to the current record (a missing record is treated as the zero
record and upserted); its own failure is only logged by `handleActivity`. -/
def handleActivity (f : ActivityField) (start : Nat)
    (readRes : Except String (Option BotActivity)) (cb : Nat → Except String Unit)
    (current : Option BotActivity) (updateFails : Bool) : ActivityOutcome :=
  let priorStart := priorBookmark readRes f
  match cb priorStart with
  | .error e => ⟨.error e, current, priorStart⟩
  | .ok _ =>
    if updateFails then ⟨.ok (), current, priorStart⟩
    else ⟨.ok (), some (activityUpdateCB f priorStart start (current.getD {})), priorStart⟩

/-! ## ZenHub pipelines (`handleZenHub`, syncer.go lines 558-602) -/

structure IssuePipeline where
  issueNumber : Nat
  pipeline : String
deriving DecidableEq, Repr

/-- Outcome of one ZenHub `GetIssueData` lookup: the distinguished
`zh.ErrNotFound`, any other error, or the pipeline name on success. -/
inductive ZhLookupErr
  | notFound
  | otherErr
deriving DecidableEq, Repr

/-- The issue loop of `handleZenHub` (syncer.go lines 572-601).
Accumulators: `pipelines` the batch being built, `writes` the
`WriteIssuePipelines` batches issued so far, `seen` the issues whose
pipeline lookup has been performed. On `ErrNotFound` the Go code
`return nil`s immediately (no final write, remaining issues unprocessed);
on any other error it returns the error; at the end of the issue list it
issues one final write of the pending batch; every 100 accumulated
pipelines it issues an intermediate write and clears the batch. -/
def handleZenHubLoop (lookup : Nat → Except ZhLookupErr String) :
    List Nat → List IssuePipeline → List (List IssuePipeline) → List Nat →
    Except Unit (List (List IssuePipeline)) × List Nat
  | [], pipelines, writes, seen => (.ok (writes ++ [pipelines]), seen)
  | i :: rest, pipelines, writes, seen =>
    match lookup i with
    | .error .notFound => (.ok writes, seen ++ [i])
    | .error .otherErr => (.error (), seen ++ [i])
    | .ok pname =>
      let ps := pipelines ++ [⟨i, pname⟩]
      if ps.length % 100 = 0 then
        handleZenHubLoop lookup rest [] (writes ++ [ps]) (seen ++ [i])
      else
        handleZenHubLoop lookup rest ps writes (seen ++ [i])

/-- Model of `handleZenHub` (syncer.go lines 558-602) for a repository whose stored
issue numbers are `issues`, with `lookup` the ZenHub `GetIssueData` call.
Returns the pass result (with the `WriteIssuePipelines` batches issued)
and the list of issues whose lookup was performed. -/
def handleZenHub (lookup : Nat → Except ZhLookupErr String) (issues : List Nat) :
    Except Unit (List (List IssuePipeline)) × List Nat :=
  handleZenHubLoop lookup issues [] [] []

/-! ## Pull requests (`handlePullRequests`, syncer.go lines 604-655)

A fetched `github.PullRequest` is modelled by its number, its
`updated_at` timestamp and an opaque payload; the stored
`storage.PullRequest` additionally carries the fetched file list. -/

structure GHPullRequest where
  number : Nat
  updatedAt : Nat
  payload : String
deriving DecidableEq, Repr

structure PullRequest where
  PullRequestNumber : Nat
  UpdatedAt : Nat
  payload : String
  Files : List String
deriving DecidableEq, Repr

/-- Model of `gh.ConvertPullRequest`: normalize a fetched pull request plus its
fetched file list into a storage record. -/
def ConvertPullRequest (pr : GHPullRequest) (files : List String) : PullRequest :=
  ⟨pr.number, pr.updatedAt, pr.payload, files⟩

/-- Accumulators of one `handlePullRequests` batch callback: the
`storagePRs` and `storagePRReviews` slices, plus the pull-request numbers
for which `fetchReviews`/`fetchFiles` were invoked. -/
structure PRPassAcc where
  storagePRs : List PullRequest
  storagePRReviews : List (Nat × Nat)
  fetched : List Nat
deriving DecidableEq, Repr

/-- The per-pull-request body of the loop in `handlePullRequests`
(syncer.go lines 615-646): skip when the cache holds the pull request with
an identical `UpdatedAt`; otherwise fetch reviews and files and convert.
`cache` is `cache.ReadPullRequest`, `reviews`/`files` are the successful
`fetchReviews`/`fetchFiles` payloads by pull-request number. -/
def processPR (cache : Nat → Option PullRequest) (reviews : Nat → List Nat)
    (files : Nat → List String) (acc : PRPassAcc) (pr : GHPullRequest) : PRPassAcc :=
  let full : PRPassAcc :=
    { storagePRs := acc.storagePRs ++ [ConvertPullRequest pr (files pr.number)],
      storagePRReviews := acc.storagePRReviews ++ (reviews pr.number).map (fun r => (pr.number, r)),
      fetched := acc.fetched ++ [pr.number] }
  match cache pr.number with
  | some existing => if existing.UpdatedAt = pr.updatedAt then acc else full
  | none => full

/-- One `fetchPullRequests` batch callback of `handlePullRequests`
(syncer.go lines 608-654): loop over the fetched batch, then write
`storagePRs` (and reviews). -/
def handlePullRequests (cache : Nat → Option PullRequest) (reviews : Nat → List Nat)
    (files : Nat → List String) (prs : List GHPullRequest) : PRPassAcc :=
  prs.foldl (processPR cache reviews files) ⟨[], [], []⟩

/-- Model of `store.WritePullRequests` — *modelled from the spec*: batch writes have
"idempotent upsert semantics"; each record in the batch replaces the
stored record with its key. -/
def WritePullRequests (store : Nat → Option PullRequest) (batch : List PullRequest) :
    Nat → Option PullRequest :=
  batch.foldl (fun st p => fun n => if n = p.PullRequestNumber then some p else st n) store

/-! ## User registry (`addUsers` lines 832-836, `pushUsers` lines 173-196)

`storage.User` is modelled by its login, display name, and one further
profile field. The Go `map[string]*storage.User` is an association list
whose assignment semantics (`ss.users[login] = user`) is `insertUser`. -/

structure User where
  UserLogin : String
  Name : String
  Company : String
deriving DecidableEq, Repr

/-- Go map assignment `ss.users[user.UserLogin] = user`: replace the entry
with that key, or add one. -/
def insertUser : List (String × User) → User → List (String × User)
  | [], u => [(u.UserLogin, u)]
  | p :: rest, u =>
    if p.1 = u.UserLogin then (p.1, u) :: rest else p :: insertUser rest u

/-- Model of `addUsers` (syncer.go lines 832-836): register each user in turn. -/
def addUsers (users : List (String × User)) (us : List User) : List (String × User) :=
  us.foldl insertUser users

/-- Go map read `ss.users[login]`. -/
def lookupUser : List (String × User) → String → Option User
  | [], _ => none
  | p :: rest, l => if p.1 = l then some p.2 else lookupUser rest l

/-- The record the spec calls "the last-registered snapshot" for a login:
the last user with that login in the flattened registration sequence. -/
def lastRegistered (us : List User) (l : String) : Option User :=
  us.reverse.find? (fun u => u.UserLogin = l)

/-- Model of `pushUsers` (syncer.go lines 173-196): build the batch — a user with an
empty name is replaced by the result of a best-effort full-profile lookup
(`enrich`, the GitHub `Users.Get` call; a lookup error keeps the stub) —
and issue exactly one `WriteUsers` call. The returned list is the list of
`WriteUsers` batches issued. -/
def pushUsers (enrich : String → Option User) (users : List (String × User)) :
    List (List User) :=
  [users.map (fun p => if p.2.Name = "" then (enrich p.2.UserLogin).getD p.2 else p.2)]

/-! ## Maintainer resolver (syncer.go lines 679-830) -/

/-- One line of `handleCODEOWNERS` (syncer.go lines 719-749): trim space
and tab, skip comment and blank lines, split into fields, strip a leading
at-sign from each login and normalize the path pattern, and yield the
`(login, repoName/path)` contributions (identity resolution for a login is
modelled as succeeding; a failing login is skipped in Go and contributes
nothing, which does not affect the other logins of the line). -/
def parseCODEOWNERSLine (repoName line : String) : List (String × String) :=
  let l := goTrim line.data
  if List.isPrefixOf ['#'] l || l = [] then []
  else
    match goFields l with
    | [] => []
    | pat :: logins =>
      logins.map (fun login =>
        let login := goTrimLeading ['@'] login
        let path := goTrimLeading ['/'] pat
        let path := goTrimTrailing ['/', '*'] path
        let path := if path = ['*'] then ([] : List Char) else path
        (String.mk login, repoName ++ "/" ++ String.mk path))

/-- Model of `handleCODEOWNERS` (syncer.go lines 708-752): split the file content on
newlines and process each line. -/
def parseCODEOWNERS (repoName content : String) : List (String × String) :=
  ((goSplit '\n' content.data).map String.mk).flatMap (parseCODEOWNERSLine repoName)

/-- The `ownersFile` document shape (syncer.go lines 754-757). -/
structure OwnersData where
  approvers : List String
  reviewers : List String
deriving DecidableEq, Repr

/-- The tree-entry selection of `handleOWNERS` (syncer.go line 786): a file
is fetched and parsed only when its last path component is `OWNERS` and
its first path component is not `vendor`. -/
def ownersCandidate (path : String) : Bool :=
  (((goSplit '/' path.data).map String.mk).getLastD "" == "OWNERS") &&
    !(((goSplit '/' path.data).map String.mk).headD "" == "vendor")

/-- The set of tree entries `handleOWNERS` fetches and parses. -/
def selectOWNERSFiles (entries : List String) : List String :=
  entries.filter ownersCandidate

/-- The maintainer-path loop of `handleOWNERS` (syncer.go lines 813-827):
each approver of each parsed OWNERS file gains the path
`repoName/<dir>` where `<dir>` is the file path with the `OWNERS` filename
suffix stripped; reviewers contribute nothing. -/
def ownersApproverPaths (repoName : String) (files : List (String × OwnersData)) :
    List (String × String) :=
  files.flatMap (fun pf =>
    pf.2.approvers.map (fun u =>
      (u, repoName ++ "/" ++ String.mk (goTrimTrailing "OWNERS".data pf.1.data))))

/-- Inputs of the maintainer resolution of one repository inside
`handleMaintainers` (syncer.go lines 684-698): whether the `GetContents`
call for CODEOWNERS succeeded, the `fc.GetContent()` decode result, and
the outcome of the `handleOWNERS` fallback fetches (commit list, tree,
raw-content fetch and YAML parse of each selected file). -/
structure RepoMaint where
  repoName : String
  codeownersFound : Bool
  codeownersContent : Except Unit String
  ownersFallback : Except Unit (List (String × OwnersData))

/-- The per-repository fallback chain of `handleMaintainers`: with a
CODEOWNERS fetch success, `handleCODEOWNERS` (whose only error is the
content decode); otherwise `handleOWNERS` (whose fetch/parse errors are
its own). The success value is the `(login, path)` contributions. -/
def repoMaintainerPaths (r : RepoMaint) : Except Unit (List (String × String)) :=
  if r.codeownersFound then
    match r.codeownersContent with
    | .ok content => .ok (parseCODEOWNERS r.repoName content)
    | .error e => .error e
  else
    match r.ownersFallback with
    | .ok files => .ok (ownersApproverPaths r.repoName files)
    | .error e => .error e

/-- Model of `getMaintainer` plus the path append (syncer.go lines 741-747,
862-872): create the maintainer record for a new login, then append the
path to its list. -/
def addMaintainerPath : List (String × List String) → String → String →
    List (String × List String)
  | [], login, path => [(login, [path])]
  | p :: rest, login, path =>
    if p.1 = login then (p.1, p.2 ++ [path]) :: rest
    else p :: addMaintainerPath rest login path

/-- Model of `handleMaintainers` (syncer.go lines 679-706): accumulate the
maintainer map over all repositories, skipping (with a logged warning) any
repository whose resolution errored, then issue the single
`WriteAllMaintainers` wholesale write, whose outcome (`writeOk`) is the
result of the pass. -/
def handleMaintainers (repos : List RepoMaint) (writeOk : Bool) :
    Except Unit (List (String × List String)) :=
  let maintainers := repos.foldl (fun acc r =>
    match repoMaintainerPaths r with
    | .ok contribs => contribs.foldl (fun a c => addMaintainerPath a c.1 c.2) acc
    | .error _ => acc) []
  if writeOk then .ok maintainers else .error ()

/-! ## Theorems -/

theorem convFilterLoop_valid (toks : List String) :
    ∀ acc, (∀ t ∈ toks, (tokenFlag t).isSome) →
      convFilterLoop toks acc =
        (toks.foldl (fun a t => a ||| (tokenFlag t).getD 0) acc, none) := by
  induction toks with
  | nil => intro acc _; rfl
  | cons t ts ih =>
    intro acc h
    have ht : (tokenFlag t).isSome := h t (List.mem_cons_self t ts)
    rcases hf : tokenFlag t with _ | fl
    · rw [hf] at ht; simp at ht
    · simp only [convFilterLoop, hf, List.foldl_cons, Option.getD_some]
      exact ih _ (fun x hx => h x (List.mem_cons_of_mem _ hx))

theorem convFilterLoop_invalid (toks : List String) :
    ∀ acc, (∃ t ∈ toks, tokenFlag t = none) →
      ∃ m, convFilterLoop toks acc = (0, some m) := by
  induction toks with
  | nil => intro acc h; simp at h
  | cons t ts ih =>
    intro acc h
    rcases hf : tokenFlag t with _ | fl
    · exact ⟨"unknown filter flag " ++ t, by simp [convFilterLoop, hf]⟩
    · obtain ⟨x, hx, hxn⟩ := h
      rcases List.mem_cons.mp hx with rfl | hmem
      · rw [hf] at hxn; exact absurd hxn (by simp)
      · simpa [convFilterLoop, hf] using ih (acc ||| fl) ⟨x, hmem, hxn⟩

/-- Claim C4: for valid comma-separated tokens `ConvFilterFlags` returns
the bitwise OR of the corresponding flag constants with no error; for the
empty string it returns the OR of all eight flags; any unrecognized token
yields the zero flag value together with an error. -/
theorem ConvFilterFlags_spec :
    ConvFilterFlags "" =
      (Issues ||| Prs ||| Maintainers ||| Members ||| Labels ||| ZenHub |||
        RepoComments ||| Events, none)
    ∧ (∀ s : String, s ≠ "" →
        (∀ t ∈ (goSplit ',' s.data).map String.mk, (tokenFlag t).isSome) →
        ConvFilterFlags s = (flagsOf ((goSplit ',' s.data).map String.mk), none))
    ∧ (∀ s : String, s ≠ "" →
        (∃ t ∈ (goSplit ',' s.data).map String.mk, tokenFlag t = none) →
        ∃ m, ConvFilterFlags s = (0, some m)) := by
  refine ⟨rfl, ?_, ?_⟩
  · intro s hs hvalid
    rw [ConvFilterFlags, if_neg hs]
    exact convFilterLoop_valid _ 0 hvalid
  · intro s hs hbad
    rw [ConvFilterFlags, if_neg hs]
    exact convFilterLoop_invalid _ 0 hbad

/-- Witness for C4: a concrete valid filter string and a concrete invalid
one. -/
theorem ConvFilterFlags_spec_witness :
    ConvFilterFlags "issues,prs" = (Issues ||| Prs, none)
    ∧ ∃ m, ConvFilterFlags "bogus" = (0, some m) := by
  constructor
  · have h := ConvFilterFlags_spec.2.1 "issues,prs" (by decide) (by decide)
    rw [h]; decide
  · exact ConvFilterFlags_spec.2.2 "bogus" (by decide) (by decide)

theorem ActivityField.get_set (f : ActivityField) (v : Nat) (a : BotActivity) :
    f.get (f.set v a) = v := by
  cases f <;> rfl

theorem ActivityField.set_set (f : ActivityField) (v w : Nat) (a : BotActivity) :
    f.set v (f.set w a) = f.set v a := by
  cases f <;> rfl

theorem ActivityField.get_default (f : ActivityField) : f.get {} = 0 := by
  cases f <;> rfl

theorem handleActivity_lowerBound (f : ActivityField) (start : Nat)
    (readRes : Except String (Option BotActivity)) (cb : Nat → Except String Unit)
    (current : Option BotActivity) (updateFails : Bool) :
    (handleActivity f start readRes cb current updateFails).lowerBound =
      priorBookmark readRes f := by
  rw [handleActivity]
  rcases cb (priorBookmark readRes f) with e | u
  · rfl
  · cases updateFails <;> rfl

/-- Claim C1: with no concurrent writer (the record `UpdateBotActivity`
finds is the record `ReadBotActivity` returned), a pass that captured
`start` before the fetch, read prior bookmark `B`, and whose fetch+write
callback succeeded, leaves the targeted bookmark field equal to exactly
`start`; the update callback advances the field only when it still equals
`B`, and re-applying the same callback after the field has advanced is a
no-op. -/
theorem handleActivity_bookmark_exact
    (f : ActivityField) (start B : Nat) (cur0 : Option BotActivity)
    (cb : Nat → Except String Unit) (act : BotActivity)
    (hB : B = priorBookmark (.ok cur0) f) (hcb : cb B = .ok ()) :
    (handleActivity f start (.ok cur0) cb cur0 false).record =
      some (activityUpdateCB f B start (cur0.getD {}))
    ∧ f.get (activityUpdateCB f B start (cur0.getD {})) = start
    ∧ (f.get act ≠ B → activityUpdateCB f B start act = act)
    ∧ activityUpdateCB f B start (activityUpdateCB f B start act) =
        activityUpdateCB f B start act := by
  subst hB
  refine ⟨?_, ?_, ?_, ?_⟩
  · rw [handleActivity, hcb]
    rfl
  · rcases cur0 with _ | a
    · simp [priorBookmark, activityUpdateCB, ActivityField.get_default,
        ActivityField.get_set]
    · simp [priorBookmark, activityUpdateCB, ActivityField.get_set]
  · intro h
    rw [activityUpdateCB, if_neg h]
  · by_cases h : f.get act = priorBookmark (.ok cur0) f
    · have hinner : activityUpdateCB f (priorBookmark (.ok cur0) f) start act =
          f.set start act := by
        rw [activityUpdateCB, if_pos h]
      rw [hinner, activityUpdateCB, ActivityField.get_set]
      by_cases hsb : start = priorBookmark (.ok cur0) f
      · rw [if_pos hsb, ActivityField.set_set]
      · rw [if_neg hsb]
    · have hinner : activityUpdateCB f (priorBookmark (.ok cur0) f) start act = act := by
        rw [activityUpdateCB, if_neg h]
      rw [hinner, hinner]

/-- Witness for C1: a repository with an existing zero-bookmark record,
`start = 5`, a succeeding callback, and a repeated-application check on a
record whose field has already advanced to 7. -/
theorem handleActivity_bookmark_exact_witness :
    ((0 : Nat) = priorBookmark (.ok (some {})) .issues)
    ∧ ((handleActivity .issues 5 (.ok (some {})) (fun _ => .ok ()) (some {}) false).record =
        some (activityUpdateCB .issues 0 5 ((some ({} : BotActivity)).getD {}))
      ∧ ActivityField.get .issues (activityUpdateCB .issues 0 5 ((some ({} : BotActivity)).getD {})) = 5
      ∧ (ActivityField.get .issues ⟨7, 0, 0⟩ ≠ 0 → activityUpdateCB .issues 0 5 ⟨7, 0, 0⟩ = ⟨7, 0, 0⟩)
      ∧ activityUpdateCB .issues 0 5 (activityUpdateCB .issues 0 5 ⟨7, 0, 0⟩) =
          activityUpdateCB .issues 0 5 ⟨7, 0, 0⟩) :=
  ⟨rfl, handleActivity_bookmark_exact .issues 5 0 (some {}) (fun _ => .ok ()) ⟨7, 0, 0⟩ rfl rfl⟩

/-- Claim C6: the bookmark-update outcome never affects the result of the pass —
when the callback succeeds the pass returns success even if the
`UpdateBotActivity` store call fails (and then leaves the record
untouched); when the callback fails the pass returns that error and the
bookmark is never advanced. -/
theorem handleActivity_update_outcome_isolated
    (f : ActivityField) (start : Nat) (readRes : Except String (Option BotActivity))
    (cb : Nat → Except String Unit) (current : Option BotActivity)
    (updateFails : Bool) (e : String) :
    (cb (priorBookmark readRes f) = .ok () →
      (handleActivity f start readRes cb current updateFails).result = .ok ()
      ∧ (handleActivity f start readRes cb current true).record = current)
    ∧ (cb (priorBookmark readRes f) = .error e →
      (handleActivity f start readRes cb current updateFails).result = .error e
      ∧ (handleActivity f start readRes cb current updateFails).record = current) := by
  constructor
  · intro hcb
    constructor
    · rw [handleActivity, hcb]
      cases updateFails <;> rfl
    · rw [handleActivity, hcb]
      rfl
  · intro hcb
    rw [handleActivity, hcb]
    exact ⟨rfl, rfl⟩

/-- Witness for C6: a succeeding callback with an injected store failure,
and a failing callback. -/
theorem handleActivity_update_outcome_isolated_witness :
    ((handleActivity .issues 5 (.ok (some {})) (fun _ => .ok ()) (some {}) true).result = .ok ()
      ∧ (handleActivity .issues 5 (.ok (some {})) (fun _ => .ok ()) (some {}) true).record = some {})
    ∧ ((handleActivity .issues 5 (.ok (some {})) (fun _ => .error "fetch failed") (some {}) false).result =
        .error "fetch failed"
      ∧ (handleActivity .issues 5 (.ok (some {})) (fun _ => .error "fetch failed") (some {}) false).record =
        some {}) :=
  ⟨(handleActivity_update_outcome_isolated .issues 5 (.ok (some {})) (fun _ => .ok ())
      (some {}) true "x").1 rfl,
   (handleActivity_update_outcome_isolated .issues 5 (.ok (some {}))
      (fun _ => .error "fetch failed") (some {}) false "fetch failed").2 rfl⟩

/-- Claim C10: the `ReadBotActivity` error is discarded — when the read
fails or no record exists, the prior bookmark defaults to the zero time,
the fetch+write callback is invoked with `0` as its lower bound, and a
read failure alone never makes the pass return an error. -/
theorem handleActivity_read_error_discarded
    (f : ActivityField) (start : Nat) (readRes : Except String (Option BotActivity))
    (cb : Nat → Except String Unit) (current : Option BotActivity) (updateFails : Bool)
    (hread : (∃ e, readRes = .error e) ∨ readRes = .ok none) :
    priorBookmark readRes f = 0
    ∧ (handleActivity f start readRes cb current updateFails).lowerBound = 0
    ∧ (cb 0 = .ok () →
        (handleActivity f start readRes cb current updateFails).result = .ok ()) := by
  have hp : priorBookmark readRes f = 0 := by
    rcases hread with ⟨e, rfl⟩ | rfl <;> rfl
  refine ⟨hp, ?_, ?_⟩
  · rw [handleActivity_lowerBound, hp]
  · intro hcb
    rw [handleActivity, hp, hcb]
    cases updateFails <;> rfl

theorem handleZenHubLoop_ok_skip (lookup : Nat → Except ZhLookupErr String) :
    ∀ pre : List Nat, (∀ j ∈ pre, ∃ nm, lookup j = .ok nm) →
      ∀ rest pipelines writes seen, ∃ p' w',
        handleZenHubLoop lookup (pre ++ rest) pipelines writes seen =
          handleZenHubLoop lookup rest p' w' (seen ++ pre) := by
  intro pre
  induction pre with
  | nil =>
    intro _ rest p w s
    exact ⟨p, w, by simp⟩
  | cons j pre ih =>
    intro h rest p w s
    obtain ⟨nm, hnm⟩ := h j (List.mem_cons_self j pre)
    have hall : ∀ x ∈ pre, ∃ nm, lookup x = .ok nm :=
      fun x hx => h x (List.mem_cons_of_mem _ hx)
    rw [List.cons_append]
    simp only [handleZenHubLoop, hnm]
    by_cases hlen : (p ++ [(⟨j, nm⟩ : IssuePipeline)]).length % 100 = 0
    · rw [if_pos hlen]
      obtain ⟨p', w', hpw⟩ := ih hall rest [] (w ++ [p ++ [(⟨j, nm⟩ : IssuePipeline)]]) (s ++ [j])
      refine ⟨p', w', ?_⟩
      rw [hpw, List.append_cons s j pre]
    · rw [if_neg hlen]
      obtain ⟨p', w', hpw⟩ := ih hall rest (p ++ [(⟨j, nm⟩ : IssuePipeline)]) w (s ++ [j])
      refine ⟨p', w', ?_⟩
      rw [hpw, List.append_cons s j pre]

/-- Claim C3: in the ZenHub pass, a pipeline lookup returning the
distinguished not-found error makes the pass return success immediately,
leaving every later issue of the repository unprocessed (only the issues
up to and including the not-found one were looked up); any other lookup
error is returned and aborts the repository. -/
theorem handleZenHub_notFound_shortCircuit
    (lookup : Nat → Except ZhLookupErr String) (pre post : List Nat) (i : Nat)
    (hpre : ∀ j ∈ pre, ∃ nm, lookup j = .ok nm) :
    (lookup i = .error .notFound →
      (∃ ws, (handleZenHub lookup (pre ++ i :: post)).1 = .ok ws)
      ∧ (handleZenHub lookup (pre ++ i :: post)).2 = pre ++ [i])
    ∧ (lookup i = .error .otherErr →
      (handleZenHub lookup (pre ++ i :: post)).1 = .error ()
      ∧ (handleZenHub lookup (pre ++ i :: post)).2 = pre ++ [i]) := by
  obtain ⟨p', w', hpw⟩ := handleZenHubLoop_ok_skip lookup pre hpre (i :: post) [] [] []
  rw [List.nil_append] at hpw
  constructor
  · intro hi
    rw [handleZenHub, hpw, handleZenHubLoop, hi]
    exact ⟨⟨w', rfl⟩, rfl⟩
  · intro hi
    rw [handleZenHub, hpw, handleZenHubLoop, hi]
    exact ⟨rfl, rfl⟩

/-- Witness for C3: the pipeline lookup of issue 2 hits not-found (first
conjunct) or another error (second conjunct) after issue 1 succeeded;
issue 3 is never looked up. -/
theorem handleZenHub_notFound_shortCircuit_witness :
    ((∃ ws, (handleZenHub (fun n => if n = 2 then .error .notFound else .ok "P")
        ([1] ++ 2 :: [3])).1 = .ok ws)
      ∧ (handleZenHub (fun n => if n = 2 then .error .notFound else .ok "P")
          ([1] ++ 2 :: [3])).2 = [1] ++ [2])
    ∧ ((handleZenHub (fun n => if n = 2 then .error .otherErr else .ok "P")
        ([1] ++ 2 :: [3])).1 = .error ()
      ∧ (handleZenHub (fun n => if n = 2 then .error .otherErr else .ok "P")
          ([1] ++ 2 :: [3])).2 = [1] ++ [2]) :=
  ⟨(handleZenHub_notFound_shortCircuit (fun n => if n = 2 then .error .notFound else .ok "P")
      [1] [3] 2 (fun j hj => by rcases List.mem_singleton.mp hj with rfl; exact ⟨"P", rfl⟩)).1 rfl,
   (handleZenHub_notFound_shortCircuit (fun n => if n = 2 then .error .otherErr else .ok "P")
      [1] [3] 2 (fun j hj => by rcases List.mem_singleton.mp hj with rfl; exact ⟨"P", rfl⟩)).2 rfl⟩

/-- Claim C2: over a fetched batch of two pull requests where the first is
already cached with an identical `updated_at` and the second is cached
with an older one, the pass fetches reviews/files only for the second,
writes exactly one record (the new state of the second), and after the upsert
the store holds the unchanged first record plus the new state of the second. -/
theorem handlePullRequests_incremental
    (cache store : Nat → Option PullRequest) (reviews : Nat → List Nat)
    (files : Nat → List String) (pr1 pr2 : GHPullRequest) (e1 e2 : PullRequest)
    (hne : pr1.number ≠ pr2.number)
    (h1 : cache pr1.number = some e1) (h1t : e1.UpdatedAt = pr1.updatedAt)
    (h2 : cache pr2.number = some e2) (h2t : e2.UpdatedAt < pr2.updatedAt)
    (hs1 : store pr1.number = some e1) :
    (handlePullRequests cache reviews files [pr1, pr2]).fetched = [pr2.number]
    ∧ (handlePullRequests cache reviews files [pr1, pr2]).storagePRs =
        [ConvertPullRequest pr2 (files pr2.number)]
    ∧ WritePullRequests store (handlePullRequests cache reviews files [pr1, pr2]).storagePRs
        pr1.number = some e1
    ∧ WritePullRequests store (handlePullRequests cache reviews files [pr1, pr2]).storagePRs
        pr2.number = some (ConvertPullRequest pr2 (files pr2.number)) := by
  have hne2 : e2.UpdatedAt ≠ pr2.updatedAt := Nat.ne_of_lt h2t
  have hrun : handlePullRequests cache reviews files [pr1, pr2] =
      ⟨[ConvertPullRequest pr2 (files pr2.number)],
        (reviews pr2.number).map (fun r => (pr2.number, r)), [pr2.number]⟩ := by
    simp [handlePullRequests, processPR, h1, h1t, h2, hne2]
  refine ⟨by rw [hrun], by rw [hrun], ?_, ?_⟩
  · rw [hrun]
    simpa [WritePullRequests, ConvertPullRequest, hne] using hs1
  · rw [hrun]
    simp [WritePullRequests, ConvertPullRequest]

/-- Witness for C2: pull request 1 cached at timestamp 10 and fetched at
10 (skipped); pull request 2 cached at 10 and fetched at 11 (re-fetched). -/
theorem handlePullRequests_incremental_witness :
    (handlePullRequests
        (fun n => if n = 1 then some ⟨1, 10, "old1", []⟩ else if n = 2 then some ⟨2, 10, "old2", []⟩ else none)
        (fun _ => [7]) (fun _ => ["f.go"]) [⟨1, 10, "v1"⟩, ⟨2, 11, "v2"⟩]).fetched = [2]
    ∧ (handlePullRequests
        (fun n => if n = 1 then some ⟨1, 10, "old1", []⟩ else if n = 2 then some ⟨2, 10, "old2", []⟩ else none)
        (fun _ => [7]) (fun _ => ["f.go"]) [⟨1, 10, "v1"⟩, ⟨2, 11, "v2"⟩]).storagePRs =
        [ConvertPullRequest ⟨2, 11, "v2"⟩ ["f.go"]]
    ∧ WritePullRequests
        (fun n => if n = 1 then some ⟨1, 10, "old1", []⟩ else if n = 2 then some ⟨2, 10, "old2", []⟩ else none)
        (handlePullRequests
          (fun n => if n = 1 then some ⟨1, 10, "old1", []⟩ else if n = 2 then some ⟨2, 10, "old2", []⟩ else none)
          (fun _ => [7]) (fun _ => ["f.go"]) [⟨1, 10, "v1"⟩, ⟨2, 11, "v2"⟩]).storagePRs 1 =
        some ⟨1, 10, "old1", []⟩
    ∧ WritePullRequests
        (fun n => if n = 1 then some ⟨1, 10, "old1", []⟩ else if n = 2 then some ⟨2, 10, "old2", []⟩ else none)
        (handlePullRequests
          (fun n => if n = 1 then some ⟨1, 10, "old1", []⟩ else if n = 2 then some ⟨2, 10, "old2", []⟩ else none)
          (fun _ => [7]) (fun _ => ["f.go"]) [⟨1, 10, "v1"⟩, ⟨2, 11, "v2"⟩]).storagePRs 2 =
        some (ConvertPullRequest ⟨2, 11, "v2"⟩ ["f.go"]) :=
  handlePullRequests_incremental
    (fun n => if n = 1 then some ⟨1, 10, "old1", []⟩ else if n = 2 then some ⟨2, 10, "old2", []⟩ else none)
    (fun n => if n = 1 then some ⟨1, 10, "old1", []⟩ else if n = 2 then some ⟨2, 10, "old2", []⟩ else none)
    (fun _ => [7]) (fun _ => ["f.go"]) ⟨1, 10, "v1"⟩ ⟨2, 11, "v2"⟩ ⟨1, 10, "old1", []⟩ ⟨2, 10, "old2", []⟩
    (by decide) rfl rfl rfl (by decide) rfl

theorem lookupUser_insertUser (m : List (String × User)) (u : User) (l : String) :
    lookupUser (insertUser m u) l =
      if u.UserLogin = l then some u else lookupUser m l := by
  induction m with
  | nil => rfl
  | cons p rest ih =>
    by_cases hp : p.1 = u.UserLogin
    · rw [insertUser, if_pos hp]
      show (if p.1 = l then some u else lookupUser rest l) =
        if u.UserLogin = l then some u else lookupUser (p :: rest) l
      rw [hp]
      by_cases hl : u.UserLogin = l
      · rw [if_pos hl, if_pos hl]
      · rw [if_neg hl, if_neg hl]
        show lookupUser rest l = if p.1 = l then some p.2 else lookupUser rest l
        rw [if_neg (fun h => hl (hp.symm.trans h))]
    · rw [insertUser, if_neg hp]
      show (if p.1 = l then some p.2 else lookupUser (insertUser rest u) l) =
        if u.UserLogin = l then some u else lookupUser (p :: rest) l
      rw [ih]
      by_cases hl : p.1 = l
      · have hul : ¬u.UserLogin = l := fun h => hp (hl.trans h.symm)
        rw [if_pos hl, if_neg hul]
        show some p.2 = if p.1 = l then some p.2 else lookupUser rest l
        rw [if_pos hl]
      · rw [if_neg hl]
        by_cases hu : u.UserLogin = l
        · rw [if_pos hu, if_pos hu]
        · rw [if_neg hu, if_neg hu]
          show lookupUser rest l = if p.1 = l then some p.2 else lookupUser rest l
          rw [if_neg hl]

theorem mem_keys_insertUser (m : List (String × User)) (u : User) (x : String) :
    x ∈ (insertUser m u).map Prod.fst ↔ x ∈ m.map Prod.fst ∨ x = u.UserLogin := by
  induction m with
  | nil => simp [insertUser]
  | cons p rest ih =>
    by_cases hp : p.1 = u.UserLogin
    · rw [insertUser, if_pos hp]
      simp only [List.map_cons, List.mem_cons]
      constructor
      · rintro (h | h)
        · exact Or.inl (Or.inl h)
        · exact Or.inl (Or.inr h)
      · rintro ((h | h) | h)
        · exact Or.inl h
        · exact Or.inr h
        · exact Or.inl (h.trans hp.symm)
    · rw [insertUser, if_neg hp]
      simp only [List.map_cons, List.mem_cons, ih]
      tauto

theorem nodup_keys_insertUser (m : List (String × User)) (u : User)
    (h : (m.map Prod.fst).Nodup) : ((insertUser m u).map Prod.fst).Nodup := by
  induction m with
  | nil => simp [insertUser]
  | cons p rest ih =>
    rw [List.map_cons, List.nodup_cons] at h
    by_cases hp : p.1 = u.UserLogin
    · rw [insertUser, if_pos hp, List.map_cons, List.nodup_cons]
      exact h
    · rw [insertUser, if_neg hp, List.map_cons, List.nodup_cons]
      refine ⟨?_, ih h.2⟩
      rw [mem_keys_insertUser]
      rintro (hmem | heq)
      · exact h.1 hmem
      · exact hp heq

theorem login_eq_key_insertUser (m : List (String × User)) (u : User)
    (h : ∀ p ∈ m, (p : String × User).2.UserLogin = p.1) :
    ∀ p ∈ insertUser m u, (p : String × User).2.UserLogin = p.1 := by
  induction m with
  | nil =>
    intro p hp
    rw [insertUser, List.mem_singleton] at hp
    rw [hp]
  | cons q rest ih =>
    intro p hp
    by_cases hq : q.1 = u.UserLogin
    · rw [insertUser, if_pos hq, List.mem_cons] at hp
      rcases hp with rfl | hp
      · exact hq.symm
      · exact h p (List.mem_cons_of_mem _ hp)
    · rw [insertUser, if_neg hq, List.mem_cons] at hp
      rcases hp with rfl | hp
      · exact h p (List.mem_cons_self _ _)
      · exact ih (fun x hx => h x (List.mem_cons_of_mem _ hx)) p hp

theorem nodup_keys_foldl_insertUser (us : List User) :
    ∀ m : List (String × User), (m.map Prod.fst).Nodup →
      ((us.foldl insertUser m).map Prod.fst).Nodup := by
  induction us with
  | nil => intro m h; exact h
  | cons u rest ih =>
    intro m h
    exact ih (insertUser m u) (nodup_keys_insertUser m u h)

theorem login_eq_key_foldl_insertUser (us : List User) :
    ∀ m : List (String × User), (∀ p ∈ m, (p : String × User).2.UserLogin = p.1) →
      ∀ p ∈ us.foldl insertUser m, (p : String × User).2.UserLogin = p.1 := by
  induction us with
  | nil => intro m h; exact h
  | cons u rest ih =>
    intro m h
    exact ih (insertUser m u) (login_eq_key_insertUser m u h)

theorem lastRegistered_cons (u : User) (rest : List User) (l : String) :
    lastRegistered (u :: rest) l =
      (lastRegistered rest l).or (if u.UserLogin = l then some u else none) := by
  rw [lastRegistered, lastRegistered, List.reverse_cons, List.find?_append]
  congr 1
  by_cases hu : u.UserLogin = l
  · simp [List.find?, hu]
  · simp [List.find?, hu]

theorem lookupUser_foldl_insertUser (us : List User) :
    ∀ (m : List (String × User)) (l : String),
      lookupUser (us.foldl insertUser m) l =
        (lastRegistered us l).or (lookupUser m l) := by
  induction us with
  | nil => intro m l; rfl
  | cons u rest ih =>
    intro m l
    rw [List.foldl_cons, ih, lookupUser_insertUser, lastRegistered_cons, Option.or_assoc]
    congr 1
    by_cases hu : u.UserLogin = l
    · rw [if_pos hu, if_pos hu]
      rfl
    · rw [if_neg hu, if_neg hu]
      rfl

theorem addUsers_foldl_flatten (calls : List (List User)) :
    ∀ init : List (String × User),
      calls.foldl addUsers init = calls.flatten.foldl insertUser init := by
  induction calls with
  | nil => intro init; rfl
  | cons c cs ih =>
    intro init
    rw [List.foldl_cons, List.flatten_cons, List.foldl_append, ih, addUsers]

theorem pushUsers_batch_logins (enrich : String → Option User)
    (m : List (String × User))
    (hinv : ∀ p ∈ m, (p : String × User).2.UserLogin = p.1)
    (henrich : ∀ l u, enrich l = some u → u.UserLogin = l) :
    (m.map (fun p => if p.2.Name = "" then (enrich p.2.UserLogin).getD p.2 else p.2)).map
      User.UserLogin = m.map Prod.fst := by
  induction m with
  | nil => rfl
  | cons p rest ih =>
    rw [List.map_cons, List.map_cons, List.map_cons,
      ih (fun x hx => hinv x (List.mem_cons_of_mem _ hx))]
    have hp := hinv p (List.mem_cons_self _ _)
    congr 1
    by_cases hname : p.2.Name = ""
    · rw [if_pos hname]
      rcases he : enrich p.2.UserLogin with _ | v
      · rw [Option.getD_none, hp]
      · rw [Option.getD_some, henrich _ _ he, hp]
    · rw [if_neg hname, hp]

/-- Claim C5: across any sequence of `addUsers` calls in one run, the user
registry holds exactly one entry per login, each login mapping to the
last-registered record for it; the end-of-run `pushUsers` flush issues
exactly one `WriteUsers` batch and that batch has no duplicate logins. -/
theorem users_registry_spec (calls : List (List User)) (enrich : String → Option User)
    (l : String) (b : List User)
    (henrich : ∀ lg u, enrich lg = some u → u.UserLogin = lg) :
    ((calls.foldl addUsers []).map Prod.fst).Nodup
    ∧ lookupUser (calls.foldl addUsers []) l = lastRegistered calls.flatten l
    ∧ (pushUsers enrich (calls.foldl addUsers [])).length = 1
    ∧ (b ∈ pushUsers enrich (calls.foldl addUsers []) → (b.map User.UserLogin).Nodup) := by
  rw [addUsers_foldl_flatten]
  refine ⟨?_, ?_, rfl, ?_⟩
  · exact nodup_keys_foldl_insertUser calls.flatten [] (by simp)
  · rw [lookupUser_foldl_insertUser]
    rcases lastRegistered calls.flatten l with _ | v <;> rfl
  · intro hb
    rw [pushUsers, List.mem_singleton] at hb
    subst hb
    rw [pushUsers_batch_logins enrich _
      (login_eq_key_foldl_insertUser calls.flatten [] (by simp)) henrich]
    exact nodup_keys_foldl_insertUser calls.flatten [] (by simp)

/-- Witness for C5: the login `al` registered twice (second record wins),
with a failing enrichment lookup. -/
theorem users_registry_spec_witness :
    (([[⟨"al", "A", ""⟩], [⟨"al", "", "C"⟩, ⟨"bo", "B", ""⟩]].foldl addUsers []).map
        Prod.fst).Nodup
    ∧ lookupUser ([[⟨"al", "A", ""⟩], [⟨"al", "", "C"⟩, ⟨"bo", "B", ""⟩]].foldl addUsers [])
        "al" = lastRegistered [[⟨"al", "A", ""⟩], [⟨"al", "", "C"⟩, ⟨"bo", "B", ""⟩]].flatten "al"
    ∧ (pushUsers (fun _ => none)
        ([[⟨"al", "A", ""⟩], [⟨"al", "", "C"⟩, ⟨"bo", "B", ""⟩]].foldl addUsers [])).length = 1
    ∧ (([⟨"al", "", "C"⟩, ⟨"bo", "B", ""⟩] : List User) ∈ pushUsers (fun _ => none)
          ([[⟨"al", "A", ""⟩], [⟨"al", "", "C"⟩, ⟨"bo", "B", ""⟩]].foldl addUsers []) →
        (([⟨"al", "", "C"⟩, ⟨"bo", "B", ""⟩] : List User).map User.UserLogin).Nodup) :=
  users_registry_spec [[⟨"al", "A", ""⟩], [⟨"al", "", "C"⟩, ⟨"bo", "B", ""⟩]]
    (fun _ => none) "al" [⟨"al", "", "C"⟩, ⟨"bo", "B", ""⟩] (fun _ _ h => nomatch h)

/-- Claim C7: CODEOWNERS parsing — a line with pattern and two at-prefixed
logins attributes the normalized path to both; a bare `*` pattern yields
the empty path suffix; blank lines and lines whose trimmed form begins
with a hash mark contribute no paths. -/
theorem handleCODEOWNERS_parse_spec (repoName line : String) :
    parseCODEOWNERS repoName "/a/b/* @alice @bob" =
      [("alice", repoName ++ "/a/b"), ("bob", repoName ++ "/a/b")]
    ∧ parseCODEOWNERS repoName "* @carol" = [("carol", repoName ++ "/")]
    ∧ ((goTrim line.data = [] ∨ List.isPrefixOf ['#'] (goTrim line.data) = true) →
        parseCODEOWNERSLine repoName line = []) := by
  refine ⟨?_, ?_, ?_⟩
  · have h : parseCODEOWNERS repoName "/a/b/* @alice @bob" =
        [("alice", repoName ++ "/" ++ "a/b"), ("bob", repoName ++ "/" ++ "a/b")] := rfl
    rw [h, String.append_assoc]
    rfl
  · have h : parseCODEOWNERS repoName "* @carol" =
        [("carol", repoName ++ "/" ++ "")] := rfl
    rw [h, String.append_assoc]
    rfl
  · intro h
    rcases h with hempty | hpre
    · simp [parseCODEOWNERSLine, hempty]
    · simp [parseCODEOWNERSLine, hpre]

/-- Witness for C7: the two example lines with `repo`, and the comment
line `  # note`. -/
theorem handleCODEOWNERS_parse_spec_witness :
    parseCODEOWNERS "repo" "/a/b/* @alice @bob" =
      [("alice", "repo" ++ "/a/b"), ("bob", "repo" ++ "/a/b")]
    ∧ parseCODEOWNERS "repo" "* @carol" = [("carol", "repo" ++ "/")]
    ∧ (goTrim "  # note".data = [] ∨ List.isPrefixOf ['#'] (goTrim "  # note".data) = true)
    ∧ parseCODEOWNERSLine "repo" "  # note" = [] :=
  ⟨(handleCODEOWNERS_parse_spec "repo" "  # note").1,
   (handleCODEOWNERS_parse_spec "repo" "  # note").2.1,
   Or.inr (by decide),
   (handleCODEOWNERS_parse_spec "repo" "  # note").2.2 (Or.inr (by decide))⟩

/-- Claim C8: the OWNERS fallback never fetches or parses an entry whose
first path segment is `vendor` (even when its filename is OWNERS); an
OWNERS file at `a/b/OWNERS` with approvers `[dave]` yields exactly the
maintainer path `repo/a/b/` (filename stripped, trailing slash kept); the
reviewers list contributes no paths. -/
theorem handleOWNERS_spec (repoName p : String) (entries : List String)
    (rvs : List String) (files : List (String × OwnersData)) (rv : String → List String)
    (hvendor : ((goSplit '/' p.data).map String.mk).headD "" = "vendor") :
    ownersCandidate p = false
    ∧ p ∉ selectOWNERSFiles entries
    ∧ ownersApproverPaths repoName [("a/b/OWNERS", ⟨["dave"], rvs⟩)] =
        [("dave", repoName ++ "/a/b/")]
    ∧ ownersApproverPaths repoName
        (files.map (fun pf => (pf.1, ⟨pf.2.approvers, rv pf.1⟩))) =
        ownersApproverPaths repoName files := by
  have hcand : ownersCandidate p = false := by
    unfold ownersCandidate
    rw [hvendor]
    simp
  refine ⟨hcand, ?_, ?_, ?_⟩
  · simp [selectOWNERSFiles, List.mem_filter, hcand]
  · have h : ownersApproverPaths repoName [("a/b/OWNERS", ⟨["dave"], rvs⟩)] =
        [("dave", repoName ++ "/" ++ "a/b/")] := rfl
    rw [h, String.append_assoc]
    rfl
  · induction files with
    | nil => rfl
    | cons pf rest ih =>
      simp only [List.map_cons, ownersApproverPaths, List.flatMap_cons] at ih ⊢
      rw [ih]

/-- Witness for C8: the vendored entry `vendor/OWNERS` is excluded from a
concrete tree; `a/b/OWNERS` with approvers `[dave]` and reviewers `[eve]`
yields only the path of dave. -/
theorem handleOWNERS_spec_witness :
    ownersCandidate "vendor/OWNERS" = false
    ∧ "vendor/OWNERS" ∉ selectOWNERSFiles ["vendor/OWNERS", "a/b/OWNERS"]
    ∧ ownersApproverPaths "repo" [("a/b/OWNERS", ⟨["dave"], ["eve"]⟩)] =
        [("dave", "repo" ++ "/a/b/")]
    ∧ ownersApproverPaths "repo"
        (([("x/OWNERS", ⟨["ann"], ["bea"]⟩)] : List (String × OwnersData)).map
          (fun pf => (pf.1, (⟨pf.2.approvers, (fun _ => ([] : List String)) pf.1⟩ : OwnersData)))) =
        ownersApproverPaths "repo" ([("x/OWNERS", ⟨["ann"], ["bea"]⟩)] : List (String × OwnersData)) :=
  handleOWNERS_spec "repo" "vendor/OWNERS" ["vendor/OWNERS", "a/b/OWNERS"] ["eve"]
    [("x/OWNERS", ⟨["ann"], ["bea"]⟩)] (fun _ => []) (by decide)

theorem foldl_skip {α β : Type} (g : β → α → β) (b : β) (pre post : List α) (x : α)
    (hx : ∀ acc, g acc x = acc) :
    (pre ++ x :: post).foldl g b = (pre ++ post).foldl g b := by
  rw [List.foldl_append, List.foldl_append, List.foldl_cons, hx]

/-- Claim C9: the maintainer pass skips (after logging) any repository
whose CODEOWNERS/OWNERS resolution errored and continues with the rest;
it always ends in the single wholesale `WriteAllMaintainers` call of the
accumulated map, and returns an error exactly when that write fails. -/
theorem handleMaintainers_skip_and_write (repos pre post : List RepoMaint) (r : RepoMaint)
    (writeOk : Bool) (herr : repoMaintainerPaths r = .error ()) :
    ((∃ m, handleMaintainers repos writeOk = .ok m) ↔ writeOk = true)
    ∧ handleMaintainers (pre ++ r :: post) writeOk =
        handleMaintainers (pre ++ post) writeOk := by
  constructor
  · cases writeOk
    · simp [handleMaintainers]
    · simp [handleMaintainers]
  · have hx : ∀ acc : List (String × List String),
        (match repoMaintainerPaths r with
          | .ok contribs => contribs.foldl (fun a c => addMaintainerPath a c.1 c.2) acc
          | .error _ => acc) = acc := by
      intro acc
      rw [herr]
    simp only [handleMaintainers]
    rw [foldl_skip _ [] pre post r hx]

/-- Witness for C9: one succeeding repository on each side of a repository
whose CODEOWNERS content decode fails. -/
theorem handleMaintainers_skip_and_write_witness :
    ((∃ m, handleMaintainers [] true = .ok m) ↔ true = true)
    ∧ handleMaintainers
        ([⟨"r1", true, .ok "* @carol", .ok []⟩] ++
          (⟨"rX", true, .error (), .ok []⟩ : RepoMaint) ::
            [⟨"r2", false, .error (), .ok [("a/OWNERS", ⟨["dave"], []⟩)]⟩]) true =
      handleMaintainers
        ([⟨"r1", true, .ok "* @carol", .ok []⟩] ++
          [⟨"r2", false, .error (), .ok [("a/OWNERS", ⟨["dave"], []⟩)]⟩]) true :=
  handleMaintainers_skip_and_write []
    [⟨"r1", true, .ok "* @carol", .ok []⟩]
    [⟨"r2", false, .error (), .ok [("a/OWNERS", ⟨["dave"], []⟩)]⟩]
    ⟨"rX", true, .error (), .ok []⟩ true rfl

/-- Witness for C10: a failed bookmark read with a succeeding callback. -/
theorem handleActivity_read_error_discarded_witness :
    priorBookmark (.error "store down") .issues = 0
    ∧ (handleActivity .issues 5 (.error "store down") (fun _ => .ok ()) none false).lowerBound = 0
    ∧ ((fun _ => Except.ok (ε := String) ()) 0 = .ok () →
        (handleActivity .issues 5 (.error "store down") (fun _ => .ok ()) none false).result =
          .ok ()) :=
  handleActivity_read_error_discarded .issues 5 (.error "store down") (fun _ => .ok ())
    none false (.inl ⟨"store down", rfl⟩)

end PolicybotSyncer
